import Mathlib

/-!
Shallow embedding of the layout heuristics of `prs_dataviz`
(`src/prs_dataviz/helpers.py` and `src/prs_dataviz/style.py`).

Numbers are modelled as rationals (`ℚ`).  The matplotlib `Axes` object is
modelled by the parts of it the functions under verification read: the list
of bar patches, the line-plot point lists, the scatter-collection offset
lists and the current y-limits.  Values are finite rationals, so the
`np.isnan` / `isinstance` guards of the source are vacuous in the model.
Python's stable `sorted` is modelled by `List.insertionSort`, which is also
stable.
-/

/-- A matplotlib bar patch: `get_x()`, `get_width()`, `get_y()`, `get_height()`. -/
structure Patch where
  x : ℚ
  width : ℚ
  y : ℚ
  height : ℚ
deriving DecidableEq, Repr

/-- The x-centre of a patch: `patch.get_x() + patch.get_width() / 2`. -/
def Patch.xCenter (p : Patch) : ℚ := p.x + p.width / 2

/-- The top of a (possibly stacked) bar: `patch.get_y() + patch.get_height()`. -/
def Patch.yTop (p : Patch) : ℚ := p.y + p.height

/-- The state of a matplotlib `Axes` read by the helper functions. -/
structure Axes where
  patches : List Patch
  lines : List (List (ℚ × ℚ))
  collections : List (List (ℚ × ℚ))
  ylim : ℚ × ℚ
deriving DecidableEq, Repr

/-- The `in_range` test of `get_data_max_in_range`:
`(x_start is None and x_end is None) or (x_start <= x <= x_end)`.
The two supported call shapes (both bounds given, or neither) are modelled
by an `Option` of the pair of bounds. -/
def inRange : Option (ℚ × ℚ) → ℚ → Prop
  | none, _ => True
  | some (s, e), x => s ≤ x ∧ x ≤ e

instance (r : Option (ℚ × ℚ)) (x : ℚ) : Decidable (inRange r x) :=
  match r with
  | none => isTrue trivial
  | some (s, e) => inferInstanceAs (Decidable (s ≤ x ∧ x ≤ e))

/-- The `data_max` accumulator of `get_data_max_in_range` just before the
sentinel check: sequential fold, starting at `0`, over patches
(`y_bottom + height` at the patch centre), line points and scatter offsets
whose x-position is in range. -/
def rawDataMax (ax : Axes) (r : Option (ℚ × ℚ)) : ℚ :=
  let m1 := ax.patches.foldl
    (fun m p => if inRange r p.xCenter then max m p.yTop else m) 0
  let m2 := ax.lines.foldl
    (fun m pts => pts.foldl (fun m q => if inRange r q.1 then max m q.2 else m) m) m1
  ax.collections.foldl
    (fun m pts => pts.foldl (fun m q => if inRange r q.1 then max m q.2 else m) m) m2

/-- `get_data_max_in_range` (helpers.py:57-126): the in-range maximum, with
the fallback `ax.get_ylim()[1] * 0.8` when the accumulator is still `0`. -/
def getDataMaxInRange (ax : Axes) (r : Option (ℚ × ℚ)) : ℚ :=
  let dataMax := rawDataMax ax r
  if dataMax = 0 then ax.ylim.2 * (8 / 10) else dataMax

/-- Every rendered primitive of the axes as an (x-position, y-value) pair:
bar patches contribute `(centre, top)`, lines and collections their points. -/
def primitives (ax : Axes) : List (ℚ × ℚ) :=
  ax.patches.map (fun p => (p.xCenter, p.yTop)) ++ ax.lines.flatten ++ ax.collections.flatten

/-- The y-values of the primitives whose x-position is in range. -/
def inRangeValues (ax : Axes) (r : Option (ℚ × ℚ)) : List ℚ :=
  ((primitives ax).filter (fun q => inRange r q.1)).map Prod.snd

/-- `data_min = ymin if ymin > 0 else 0`, shared by
`auto_calculate_ylim_for_annotations` and `auto_position_brackets`. -/
def dataMinOf (ax : Axes) : ℚ := if ax.ylim.1 > 0 then ax.ylim.1 else 0

/-- The data range both helpers divide space by: overall in-range maximum
minus the zero-or-positive floor. -/
def dataRangeOf (ax : Axes) : ℚ := getDataMaxInRange ax none - dataMinOf ax

/-- `auto_calculate_ylim_for_annotations` (helpers.py:129-190).  The
`base_extension` and `per_comparison` parameters appear in the signature but
the body uses the fixed percentages 0.05, 0.08 and 0.02.  The function also
calls `ax.set_ylim` on the returned pair; the model returns the pair. -/
def autoCalculateYlimForAnnotations (ax : Axes) (nComparisons : ℤ)
    (baseExtension perComparison : ℚ) : ℚ × ℚ :=
  let dataMax := getDataMaxInRange ax none
  let dataMin := dataMinOf ax
  let dataRange := dataMax - dataMin
  let baseOffset : ℚ := 5 / 100
  let stackSpacing : ℚ := 8 / 100
  let textSpacing : ℚ := 2 / 100
  let totalHeadroom :=
    (baseOffset + ((nComparisons : ℚ) - 1) * stackSpacing + textSpacing) * dataRange
  (dataMin, dataMax + totalHeadroom)

/-- The sort key of `auto_position_brackets`: `abs(x[1][1] - x[1][0])`. -/
def spanWidth (span : ℚ × ℚ) : ℚ := |span.2 - span.1|

/-- The ordering used for `sorted(enumerate(comparisons), key=width,
reverse=True)`: descending by span width, stable on ties. -/
def rWidth (a b : ℕ × (ℚ × ℚ)) : Prop := spanWidth b.2 ≤ spanWidth a.2

instance : DecidableRel rWidth :=
  fun a b => inferInstanceAs (Decidable (spanWidth b.2 ≤ spanWidth a.2))

instance : IsTotal (ℕ × (ℚ × ℚ)) rWidth :=
  ⟨fun a b => (le_total (spanWidth b.2) (spanWidth a.2)).imp id id⟩

instance : IsTrans (ℕ × (ℚ × ℚ)) rWidth :=
  ⟨fun _ _ _ h1 h2 => le_trans h2 h1⟩

/-- The ordering used for `y_positions.sort(key=lambda x: x[0])`. -/
def rIdx (a b : ℕ × ℚ) : Prop := a.1 ≤ b.1

instance : DecidableRel rIdx := fun a b => inferInstanceAs (Decidable (a.1 ≤ b.1))

instance : IsTotal (ℕ × ℚ) rIdx := ⟨fun a b => le_total a.1 b.1⟩

instance : IsTrans (ℕ × ℚ) rIdx := ⟨fun _ _ _ h1 h2 => le_trans h1 h2⟩

/-- `auto_position_brackets` (helpers.py:193-260): pair each comparison with
its index, sort by width descending (stable), use the position in the sorted
list as the stack level, compute one bracket y per comparison, then restore
the original input order. -/
def autoPositionBrackets (ax : Axes) (comparisons : List (ℚ × ℚ))
    (baseOffset stackSpacing : ℚ) : List ℚ :=
  let dataRange := dataRangeOf ax
  let sortedComps := comparisons.enum.insertionSort rWidth
  let yPositions := sortedComps.enum.map (fun lp =>
    (lp.2.1,
      getDataMaxInRange ax (some lp.2.2)
        + baseOffset * dataRange
        + (lp.1 : ℚ) * stackSpacing * dataRange))
  (yPositions.insertionSort rIdx).map Prod.snd

/-- The stack level `auto_position_brackets` assigns to input span `i`: its
position in the width-descending stable sort of the enumerated spans. -/
def bracketLevel (comparisons : List (ℚ × ℚ)) (i : ℕ) : ℕ :=
  (comparisons.enum.insertionSort rWidth).findIdx (fun p => p.1 == i)

/-- `int(math.ceil(math.sqrt(n)))`, exact. -/
def ceilSqrt (n : ℕ) : ℕ :=
  if Nat.sqrt n * Nat.sqrt n = n then Nat.sqrt n else Nat.sqrt n + 1

/-- `_calculate_optimal_ncol` (style.py:451-507).  The `max_label_length`
parameter appears in the signature but is unused by the body; the thresholds
40 / 25 / 15 are fixed.  `avg_length` is the exact rational mean. -/
def calculateOptimalNcol (labels : List String)
    (maxLabelLength maxCols : ℕ) : ℕ :=
  if labels = [] then 1
  else
    let nLabels := labels.length
    let avgLength : ℚ := ((labels.map String.length).sum : ℚ) / (nLabels : ℚ)
    let maxLength := (labels.map String.length).foldr max 0
    if maxLength > 40 then 1
    else if avgLength > 25 then min 2 nLabels
    else if avgLength > 15 then min 3 (max 2 (nLabels / 2))
    else if nLabels ≤ 4 then min maxCols nLabels
    else min maxCols (ceilSqrt nLabels)

/-- Modelled from the spec: the section 4.4 decision table for
`optimal_columns(labels, max_cols=4)`, applied in order, first match wins:
empty list → 1; max length > 40 → 1; average > 25 → `min(2, n)`;
average > 15 → `min(3, max(2, n // 2))`; `n ≤ 4` → `min(4, n)`;
otherwise `min(4, ceil(sqrt(n)))`. -/
def optimalColumnsSpec (labels : List String) : ℕ :=
  if labels = [] then 1
  else if 40 < (labels.map String.length).foldr max 0 then 1
  else if (25 : ℚ) < ((labels.map String.length).sum : ℚ) / (labels.length : ℚ) then
    min 2 labels.length
  else if (15 : ℚ) < ((labels.map String.length).sum : ℚ) / (labels.length : ℚ) then
    min 3 (max 2 (labels.length / 2))
  else if labels.length ≤ 4 then min 4 labels.length
  else min 4 (ceilSqrt labels.length)

/-- The `ncol` derivation of `prs_legend` (style.py:714-726) when `ncol` is
not supplied: position-dependent cutoff and column cap. -/
def prsLegendNcol (position : String) (labels : List String) : ℕ :=
  if position = "top" ∨ position = "top-smart" then
    calculateOptimalNcol labels 20 4
  else if position = "outside" then
    calculateOptimalNcol labels 30 2
  else
    calculateOptimalNcol labels 25 3

/-- The scenario axes of the spec: bars at heights 1250, 1680, 2150, 2890 at
x-centres 0..3, y-limits (0, 3000) before planning. -/
def barsAx : Axes :=
  ⟨[⟨0, 0, 0, 1250⟩, ⟨1, 0, 0, 1680⟩, ⟨2, 0, 0, 2150⟩, ⟨3, 0, 0, 2890⟩], [], [], (0, 3000)⟩

lemma dataMinOf_eq_max (ax : Axes) : dataMinOf ax = max 0 ax.ylim.1 := by
  rw [dataMinOf, max_def]
  split_ifs with h1 h2 <;> first | rfl | linarith

/-- C1: for every axes state and every `n_comparisons ≥ 1`, the y-limit
planner returns `(data_min, data_max + total_headroom)` where `data_max` is
the whole-axes data maximum, `data_min = max 0` (current axis minimum), and
`total_headroom = (0.05 + (n - 1) * 0.08 + 0.02) * (data_max - data_min)`;
in particular on bars at heights 1250, 1680, 2150, 2890 with three
comparisons the returned max is 3554.7. -/
theorem ylim_planner_formula_and_scenario :
    (∀ (ax : Axes) (n : ℤ) (be pc : ℚ), 1 ≤ n →
      autoCalculateYlimForAnnotations ax n be pc =
        (max 0 ax.ylim.1,
          getDataMaxInRange ax none +
            (5 / 100 + ((n : ℚ) - 1) * (8 / 100) + 2 / 100) *
              (getDataMaxInRange ax none - max 0 ax.ylim.1)))
    ∧ (autoCalculateYlimForAnnotations barsAx 3 (12 / 100) (8 / 100)).2 = 35547 / 10 := by
  constructor
  · intro ax n be pc _
    rw [autoCalculateYlimForAnnotations, dataMinOf_eq_max]
  · norm_num [autoCalculateYlimForAnnotations, getDataMaxInRange, rawDataMax, dataMinOf,
      barsAx, Patch.xCenter, Patch.yTop, inRange, max_def]

/-- Witness for C1 at the concrete scenario axes, `n_comparisons = 3`. -/
theorem ylim_planner_formula_and_scenario_witness :
    autoCalculateYlimForAnnotations barsAx 3 (12 / 100) (8 / 100) =
      (0, getDataMaxInRange barsAx none +
        (5 / 100 + ((3 : ℚ) - 1) * (8 / 100) + 2 / 100) *
          (getDataMaxInRange barsAx none - 0)) := by
  have h := ylim_planner_formula_and_scenario.1 barsAx 3 (12 / 100) (8 / 100) (by norm_num)
  rw [h]
  norm_num [barsAx, max_def]

/-- C10: the result of `auto_calculate_ylim_for_annotations` does not depend
on its `base_extension` and `per_comparison` parameters, since the body uses
the fixed percentages 0.05, 0.08, 0.02. -/
theorem ylim_planner_ignores_extension_params :
    ∀ (ax : Axes) (n : ℤ) (b1 p1 b2 p2 : ℚ),
      autoCalculateYlimForAnnotations ax n b1 p1 =
        autoCalculateYlimForAnnotations ax n b2 p2 :=
  fun _ _ _ _ _ _ => rfl

/-- C2: `_calculate_optimal_ncol` with the default `max_cols = 4` computes
exactly the value of the spec's section 4.4 decision table (first match
wins). -/
theorem optimal_ncol_matches_spec_table :
    ∀ labels : List String, calculateOptimalNcol labels 20 4 = optimalColumnsSpec labels :=
  fun _ => rfl

/-- C6 counterexample: on an axes whose current y-minimum (20) exceeds the
data maximum (10), the data range is negative, and raising `n_comparisons`
from 1 to 2 strictly lowers the returned max. -/
theorem ylim_planner_not_monotone_counterexample :
    (1 : ℤ) ≤ 2 ∧
    (autoCalculateYlimForAnnotations ⟨[⟨0, 0, 0, 10⟩], [], [], (20, 30)⟩ 2 (12 / 100) (8 / 100)).2
      < (autoCalculateYlimForAnnotations ⟨[⟨0, 0, 0, 10⟩], [], [], (20, 30)⟩ 1 (12 / 100) (8 / 100)).2 := by
  constructor
  · norm_num
  · norm_num [autoCalculateYlimForAnnotations, getDataMaxInRange, rawDataMax, dataMinOf,
      Patch.xCenter, Patch.yTop, inRange, max_def]

/-- C6 amended: whenever the computed data minimum does not exceed the
computed data maximum (non-negative data range), the returned max of the
y-limit planner is monotonically non-decreasing in `n_comparisons`. -/
theorem ylim_planner_monotone_of_nonneg_range :
    ∀ (ax : Axes) (be pc : ℚ) (n1 n2 : ℤ),
      dataMinOf ax ≤ getDataMaxInRange ax none → n1 ≤ n2 →
      (autoCalculateYlimForAnnotations ax n1 be pc).2
        ≤ (autoCalculateYlimForAnnotations ax n2 be pc).2 := by
  intro ax be pc n1 n2 hle hn
  simp only [autoCalculateYlimForAnnotations]
  have hr : (0 : ℚ) ≤ getDataMaxInRange ax none - dataMinOf ax := by linarith
  have hq : ((n1 : ℚ)) ≤ (n2 : ℚ) := by exact_mod_cast hn
  have hAB : (5 / 100 + ((n1 : ℚ) - 1) * (8 / 100) + 2 / 100)
      ≤ (5 / 100 + ((n2 : ℚ) - 1) * (8 / 100) + 2 / 100) := by linarith
  have := mul_le_mul_of_nonneg_right hAB hr
  linarith

/-- Witness for C6 amended at the scenario axes, `n1 = 1 ≤ n2 = 3`. -/
theorem ylim_planner_monotone_of_nonneg_range_witness :
    (autoCalculateYlimForAnnotations barsAx 1 0 0).2
      ≤ (autoCalculateYlimForAnnotations barsAx 3 0 0).2 := by
  refine ylim_planner_monotone_of_nonneg_range barsAx 0 0 1 3 ?_ (by norm_num)
  norm_num [getDataMaxInRange, rawDataMax, dataMinOf, barsAx, Patch.xCenter, Patch.yTop,
    inRange, max_def]

lemma foldl_step_eq (r : Option (ℚ × ℚ)) (l : List (ℚ × ℚ)) (a : ℚ) :
    l.foldl (fun m q => if inRange r q.1 then max m q.2 else m) a
      = ((l.filter (fun q => inRange r q.1)).map Prod.snd).foldl max a := by
  induction l generalizing a with
  | nil => rfl
  | cons x xs ih =>
    by_cases h : inRange r x.1
    · simp [List.filter_cons, h, ih]
    · simp [List.filter_cons, h, ih]

lemma rawDataMax_eq (ax : Axes) (r : Option (ℚ × ℚ)) :
    rawDataMax ax r = (inRangeValues ax r).foldl max 0 := by
  rw [inRangeValues, ← foldl_step_eq r (primitives ax) 0]
  simp only [rawDataMax, primitives]
  rw [List.append_assoc, List.foldl_append, List.foldl_append,
    List.foldl_map, List.foldl_flatten, List.foldl_flatten]

/-- C9: if no rendered primitive falls within the requested x-range, the
geometry inspector returns the sentinel `0.8` times the current y-axis
maximum (the model is a total function: no error is raised). -/
theorem find_max_empty_range_sentinel :
    ∀ (ax : Axes) (s e : ℚ),
      (∀ q ∈ primitives ax, ¬ inRange (some (s, e)) q.1) →
      getDataMaxInRange ax (some (s, e)) = ax.ylim.2 * (8 / 10) := by
  intro ax s e hempty
  have hraw : rawDataMax ax (some (s, e)) = 0 := by
    rw [rawDataMax_eq, inRangeValues]
    rw [List.filter_eq_nil_iff.2 (by simpa using hempty)]
    rfl
  rw [getDataMaxInRange]
  simp [hraw]

/-- Witness for C9: one bar at x-centre 0, requested range (5, 6). -/
theorem find_max_empty_range_sentinel_witness :
    getDataMaxInRange ⟨[⟨0, 0, 0, 10⟩], [], [], (0, 100)⟩ (some (5, 6)) = 100 * (8 / 10) := by
  have h := find_max_empty_range_sentinel ⟨[⟨0, 0, 0, 10⟩], [], [], (0, 100)⟩ 5 6 ?_
  · exact h
  · intro q hq
    simp only [primitives, Patch.xCenter, Patch.yTop, List.map_cons, List.map_nil,
      List.flatten_nil, List.append_nil, List.mem_singleton] at hq
    subst hq
    norm_num [inRange]

/-- A 45-character label, longer than the 40-character single-column cutoff. -/
def longLabel : String := "aaaaaaaaaaaaaaaaaaaaaaaaaaaaaaaaaaaaaaaaaaaaa"

/-- A 20-character label, in the medium (15, 25] average-length bucket. -/
def mediumLabel : String := "aaaaaaaaaaaaaaaaaaaa"

/-- C8 counterexample: four labels with average length 12 (< 15) one of which
is 45 characters long; the 40-character rule fires first and the calculator
returns 1, not `min 4 4 = 4`. -/
theorem optimal_ncol_short_labels_counterexample :
    [longLabel, "b", "c", "d"] ≠ [] ∧
    [longLabel, "b", "c", "d"].length ≤ 4 ∧
    (([longLabel, "b", "c", "d"].map String.length).sum : ℚ)
        / (([longLabel, "b", "c", "d"].length : ℕ) : ℚ) < 15 ∧
    calculateOptimalNcol [longLabel, "b", "c", "d"] 20 4 = 1 ∧
    min 4 [longLabel, "b", "c", "d"].length = 4 := by
  have h1 : longLabel.length = 45 := rfl
  have h2 : "b".length = 1 := rfl
  have h3 : "c".length = 1 := rfl
  have h4 : "d".length = 1 := rfl
  refine ⟨by simp, by simp, ?_, ?_, by simp⟩
  · norm_num [h1, h2, h3, h4]
  · norm_num [calculateOptimalNcol, h1, h2, h3, h4]

/-- C8 amended: for every non-empty list of at most 4 labels with average
length below 15 AND maximum length at most 40, the calculator with default
`max_cols = 4` returns `min 4 (number of labels)`. -/
theorem optimal_ncol_short_labels_of_max_le :
    ∀ labels : List String, labels ≠ [] → labels.length ≤ 4 →
      ((labels.map String.length).sum : ℚ) / ((labels.length : ℕ) : ℚ) < 15 →
      (labels.map String.length).foldr max 0 ≤ 40 →
      calculateOptimalNcol labels 20 4 = min 4 labels.length := by
  intro labels hne hlen havg hmax
  simp only [calculateOptimalNcol]
  split_ifs with h1 h2 h3 h4 h5
  all_goals first
    | exact absurd h1 hne
    | omega
    | (exfalso; linarith)
    | rfl

/-- Witness for C8 amended at three short labels. -/
theorem optimal_ncol_short_labels_of_max_le_witness :
    calculateOptimalNcol ["ab", "cd", "ef"] 20 4 = min 4 3 := by
  have h := optimal_ncol_short_labels_of_max_le ["ab", "cd", "ef"] (by simp) (by simp) ?_ ?_
  · simpa using h
  · have h2 : "ab".length = 2 := rfl
    have h3 : "cd".length = 2 := rfl
    have h4 : "ef".length = 2 := rfl
    norm_num [h2, h3, h4]
  · have h2 : "ab".length = 2 := rfl
    have h3 : "cd".length = 2 := rfl
    have h4 : "ef".length = 2 := rfl
    norm_num [h2, h3, h4]

/-- C5 counterexample: with `position = "outside"` and six 20-character
labels, `prs_legend` derives 3 columns even though the claim caps `outside`
at 2: the medium-label branch `min(3, max(2, n // 2))` ignores `max_cols`. -/
theorem prs_legend_outside_cap_counterexample :
    prsLegendNcol "outside"
        [mediumLabel, mediumLabel, mediumLabel, mediumLabel, mediumLabel, mediumLabel] = 3 ∧
      ¬ (3 : ℕ) ≤ 2 := by
  constructor
  · have h1 : mediumLabel.length = 20 := rfl
    norm_num [prsLegendNcol, calculateOptimalNcol, h1]
    simp
  · omega

lemma calcNcol_le_max (labels : List String) (mL c : ℕ) :
    calculateOptimalNcol labels mL c ≤ max c 3 := by
  simp only [calculateOptimalNcol]
  split_ifs <;> omega

/-- C5 amended: when `ncol` is not supplied, `prs_legend` derives at most 4
columns for `top`/`top-smart` and at most 3 columns for every other
position, including `outside` (whose nominal cap of 2 can be exceeded by
the medium-label branch, which returns up to 3). -/
theorem prs_legend_ncol_caps :
    ∀ (position : String) (labels : List String),
      prsLegendNcol position labels ≤
        if position = "top" ∨ position = "top-smart" then 4 else 3 := by
  intro pos labels
  unfold prsLegendNcol
  split_ifs with h1 h2
  · have := calcNcol_le_max labels 20 4; omega
  · have := calcNcol_le_max labels 30 2; omega
  · have := calcNcol_le_max labels 25 3; omega

/-- Four equal-height bars at x-centres 0..3, used to exhibit the bracket
stacking direction. -/
def equalBarsAx : Axes :=
  ⟨[⟨0, 0, 0, 10⟩, ⟨1, 0, 0, 10⟩, ⟨2, 0, 0, 10⟩, ⟨3, 0, 0, 10⟩], [], [], (0, 12)⟩

/-- C3 failing input: two spans with the same local data maximum (10), the
wider span (0, 3) and the narrower (1, 2).  The code returns y = 10.5 for
the widest span and y = 11.3 for the narrower one: the width-descending sort
assigns the widest span stack level 0, the LOWEST position, contradicting
the claim and the code's own comment that wider brackets stack higher. -/
theorem position_brackets_widest_lowest_at_bug_input :
    spanWidth (1, 2) < spanWidth (0, 3) ∧
    getDataMaxInRange equalBarsAx (some (0, 3)) = getDataMaxInRange equalBarsAx (some (1, 2)) ∧
    autoPositionBrackets equalBarsAx [(0, 3), (1, 2)] (5 / 100) (8 / 100) = [21 / 2, 113 / 10] ∧
    (21 / 2 : ℚ) < 113 / 10 := by
  refine ⟨by norm_num [spanWidth], ?_, ?_, by norm_num⟩
  · norm_num [getDataMaxInRange, rawDataMax, equalBarsAx, Patch.xCenter, Patch.yTop,
      inRange, max_def]
  · norm_num [autoPositionBrackets, dataRangeOf, dataMinOf, getDataMaxInRange, rawDataMax,
      equalBarsAx, Patch.xCenter, Patch.yTop, inRange, max_def, List.insertionSort,
      List.orderedInsert, rWidth, rIdx, spanWidth, List.enum, List.enumFrom]

lemma le_foldl_max (a : ℚ) (l : List ℚ) : a ≤ l.foldl max a := by
  induction l generalizing a with
  | nil => exact le_refl a
  | cons x xs ih => exact le_trans (le_max_left a x) (ih (max a x))

lemma mem_le_foldl_max {x : ℚ} {l : List ℚ} (h : x ∈ l) (a : ℚ) : x ≤ l.foldl max a := by
  induction l generalizing a with
  | nil => cases h
  | cons y ys ih =>
    rcases List.mem_cons.1 h with rfl | h2
    · exact le_trans (le_max_right a x) (le_foldl_max (max a x) ys)
    · exact ih h2 (max a y)

lemma foldl_max_le {l : List ℚ} {a c : ℚ} (ha : a ≤ c) (h : ∀ x ∈ l, x ≤ c) :
    l.foldl max a ≤ c := by
  induction l generalizing a with
  | nil => exact ha
  | cons y ys ih =>
    exact ih (max_le ha (h y (by simp))) (fun x hx => h x (by simp [hx]))

lemma foldr_max_nonneg (l : List ℚ) : 0 ≤ l.foldr max 0 := by
  induction l with
  | nil => exact le_refl 0
  | cons x xs ih => exact le_trans ih (le_max_right x _)

lemma mem_le_foldr_max {x : ℚ} {l : List ℚ} (h : x ∈ l) : x ≤ l.foldr max 0 := by
  induction l with
  | nil => cases h
  | cons y ys ih =>
    rcases List.mem_cons.1 h with rfl | h2
    · exact le_max_left x _
    · exact le_trans (ih h2) (le_max_right y _)

lemma foldr_max_le {l : List ℚ} {c : ℚ} (h0 : 0 ≤ c) (h : ∀ x ∈ l, x ≤ c) :
    l.foldr max 0 ≤ c := by
  induction l with
  | nil => exact h0
  | cons y ys ih =>
    exact max_le (h y (by simp)) (ih (fun x hx => h x (by simp [hx])))

lemma inRangeValues_subset {ax : Axes} {r : Option (ℚ × ℚ)} :
    ∀ x ∈ inRangeValues ax r, x ∈ inRangeValues ax none := by
  intro x hx
  simp only [inRangeValues, List.mem_map, List.mem_filter] at hx ⊢
  obtain ⟨q, ⟨hq, _⟩, rfl⟩ := hx
  exact ⟨q, ⟨hq, by simp [inRange]⟩, rfl⟩

lemma rawDataMax_le_global (ax : Axes) (r : Option (ℚ × ℚ)) :
    rawDataMax ax r ≤ rawDataMax ax none := by
  rw [rawDataMax_eq, rawDataMax_eq]
  exact foldl_max_le (le_foldl_max 0 _)
    (fun x hx => mem_le_foldl_max (inRangeValues_subset x hx) 0)

/-- C7 counterexample: one bar of height 10 at x-centre 0, y-limits (0, 100).
The disjoint sub-ranges (-1, 1) and (2, 3) cover every primitive x-position,
yet the second sub-range holds no data, so its query returns the sentinel
0.8 * 100 = 80 and the maximum over the family is 80, not the global 10. -/
theorem find_max_round_trip_counterexample :
    ([((-1 : ℚ), (1 : ℚ)), (2, 3)]) ≠ [] ∧
    List.Pairwise
      (fun r s => ∀ x : ℚ, ¬ (inRange (some r) x ∧ inRange (some s) x))
      [((-1 : ℚ), (1 : ℚ)), (2, 3)] ∧
    (∀ q ∈ primitives ⟨[⟨0, 0, 0, 10⟩], [], [], (0, 100)⟩,
      ∃ rg ∈ [((-1 : ℚ), (1 : ℚ)), (2, 3)], inRange (some rg) q.1) ∧
    ([((-1 : ℚ), (1 : ℚ)), (2, 3)].map
        (fun rg => getDataMaxInRange ⟨[⟨0, 0, 0, 10⟩], [], [], (0, 100)⟩ (some rg))).foldr max 0
      ≠ getDataMaxInRange ⟨[⟨0, 0, 0, 10⟩], [], [], (0, 100)⟩ none := by
  refine ⟨by simp, ?_, ?_, ?_⟩
  · refine List.Pairwise.cons ?_ (List.pairwise_singleton _ _)
    intro s hs x hx
    simp only [List.mem_singleton] at hs
    subst hs
    simp only [inRange] at hx
    obtain ⟨⟨_, h2⟩, ⟨h3, _⟩⟩ := hx
    linarith
  · intro q hq
    simp only [primitives, Patch.xCenter, Patch.yTop, List.map_cons, List.map_nil,
      List.flatten_nil, List.append_nil, List.mem_singleton] at hq
    subst hq
    exact ⟨(-1, 1), by simp, by norm_num [inRange]⟩
  · norm_num [getDataMaxInRange, rawDataMax, Patch.xCenter, Patch.yTop, inRange, max_def]

/-- C7 amended: if moreover every sub-range actually contains data (its raw
in-range maximum is positive, so the 80%-of-ymax sentinel fires nowhere),
then `find_max_in_range` with no x-range equals the maximum over the
sub-range queries of a disjoint covering family. -/
theorem find_max_round_trip_of_nonempty_ranges :
    ∀ (ax : Axes) (ranges : List (ℚ × ℚ)),
      ranges ≠ [] →
      List.Pairwise
        (fun r s => ∀ x : ℚ, ¬ (inRange (some r) x ∧ inRange (some s) x)) ranges →
      (∀ q ∈ primitives ax, ∃ rg ∈ ranges, inRange (some rg) q.1) →
      (∀ rg ∈ ranges, 0 < rawDataMax ax (some rg)) →
      (ranges.map (fun rg => getDataMaxInRange ax (some rg))).foldr max 0
        = getDataMaxInRange ax none := by
  intro ax ranges hne _hdisj hcov hpos
  have hg : ∀ rg ∈ ranges, getDataMaxInRange ax (some rg) = rawDataMax ax (some rg) := by
    intro rg hr
    rw [getDataMaxInRange]
    simp [ne_of_gt (hpos rg hr)]
  obtain ⟨r0, hr0⟩ := List.exists_mem_of_ne_nil ranges hne
  have hgpos : 0 < rawDataMax ax none :=
    lt_of_lt_of_le (hpos r0 hr0) (rawDataMax_le_global ax (some r0))
  have hglobal : getDataMaxInRange ax none = rawDataMax ax none := by
    rw [getDataMaxInRange]
    simp [ne_of_gt hgpos]
  rw [hglobal]
  apply le_antisymm
  · apply foldr_max_le (le_of_lt hgpos)
    intro x hx
    simp only [List.mem_map] at hx
    obtain ⟨rg, hrg, rfl⟩ := hx
    rw [hg rg hrg]
    exact rawDataMax_le_global ax (some rg)
  · rw [rawDataMax_eq]
    apply foldl_max_le (foldr_max_nonneg _)
    intro x hx
    simp only [inRangeValues, List.mem_map, List.mem_filter] at hx
    obtain ⟨q, ⟨hq, _⟩, rfl⟩ := hx
    obtain ⟨rg, hrg, hin⟩ := hcov q hq
    have hmem : q.2 ∈ inRangeValues ax (some rg) := by
      simp only [inRangeValues, List.mem_map, List.mem_filter]
      exact ⟨q, ⟨hq, by simpa using hin⟩, rfl⟩
    have h1 : q.2 ≤ rawDataMax ax (some rg) := by
      rw [rawDataMax_eq]
      exact mem_le_foldl_max hmem 0
    have h2 : rawDataMax ax (some rg)
        ≤ (ranges.map (fun rg => getDataMaxInRange ax (some rg))).foldr max 0 := by
      rw [← hg rg hrg]
      exact mem_le_foldr_max (List.mem_map_of_mem _ hrg)
    linarith

/-- Witness for C7 amended: bars of heights 5 and 7 at x-centres 0 and 2,
covered by the disjoint sub-ranges (-1, 1) and (2, 3), each holding data. -/
theorem find_max_round_trip_of_nonempty_ranges_witness :
    ([((-1 : ℚ), (1 : ℚ)), (2, 3)].map
        (fun rg => getDataMaxInRange ⟨[⟨0, 0, 0, 5⟩, ⟨2, 0, 0, 7⟩], [], [], (0, 10)⟩ (some rg))).foldr max 0
      = getDataMaxInRange ⟨[⟨0, 0, 0, 5⟩, ⟨2, 0, 0, 7⟩], [], [], (0, 10)⟩ none := by
  apply find_max_round_trip_of_nonempty_ranges
  · simp
  · refine List.Pairwise.cons ?_ (List.pairwise_singleton _ _)
    intro s hs x hx
    simp only [List.mem_singleton] at hs
    subst hs
    simp only [inRange] at hx
    obtain ⟨⟨_, h2⟩, ⟨h3, _⟩⟩ := hx
    linarith
  · intro q hq
    simp only [primitives, Patch.xCenter, Patch.yTop, List.map_cons, List.map_nil,
      List.flatten_nil, List.append_nil, List.mem_cons, List.mem_singleton,
      List.not_mem_nil, or_false] at hq
    rcases hq with rfl | rfl
    · exact ⟨(-1, 1), by simp, by norm_num [inRange]⟩
    · exact ⟨(2, 3), by simp, by norm_num [inRange]⟩
  · intro rg hrg
    simp only [List.mem_cons, List.mem_singleton, List.not_mem_nil, or_false] at hrg
    rcases hrg with rfl | rfl
    · norm_num [rawDataMax, Patch.xCenter, Patch.yTop, inRange, max_def]
    · norm_num [rawDataMax, Patch.xCenter, Patch.yTop, inRange, max_def]

lemma brackets_pipeline (f : ℕ → (ℚ × ℚ) → ℚ) (comps : List (ℚ × ℚ)) :
    ((((comps.enum.insertionSort rWidth).enum.map
        (fun lp => (lp.2.1, f lp.1 lp.2.2))).insertionSort rIdx).map Prod.snd).length
      = comps.length ∧
    ∀ i (hi : i < comps.length),
      ((((comps.enum.insertionSort rWidth).enum.map
        (fun lp => (lp.2.1, f lp.1 lp.2.2))).insertionSort rIdx).map Prod.snd)[i]? =
        some (f (bracketLevel comps i) comps[i]) := by
  set sc := comps.enum.insertionSort rWidth with hsc
  set ys := sc.enum.map (fun lp => (lp.2.1, f lp.1 lp.2.2)) with hys
  set out := ys.insertionSort rIdx with hout
  have hscperm : List.Perm sc comps.enum := List.perm_insertionSort rWidth comps.enum
  have hsclen : sc.length = comps.length := by
    rw [hscperm.length_eq, List.enum_length]
  have hyslen : ys.length = comps.length := by
    rw [hys, List.length_map, List.enum_length, hsclen]
  have houtperm : List.Perm out ys := List.perm_insertionSort rIdx ys
  have houtlen : out.length = comps.length := by rw [houtperm.length_eq, hyslen]
  have hysfst : ys.map Prod.fst = sc.map Prod.fst := by
    rw [hys, List.map_map]
    have h1 : (Prod.fst ∘ fun lp : ℕ × (ℕ × (ℚ × ℚ)) => ((lp.2.1 : ℕ), f lp.1 lp.2.2))
        = Prod.fst ∘ Prod.snd := rfl
    rw [h1, ← List.map_map, List.enum_map_snd]
  have hfstperm : List.Perm (ys.map Prod.fst) (List.range comps.length) := by
    rw [hysfst]
    have h2 := hscperm.map Prod.fst
    rwa [List.enum_map_fst] at h2
  have hnodup : (ys.map Prod.fst).Nodup := hfstperm.nodup_iff.2 (List.nodup_range _)
  have hscnodup : (sc.map Prod.fst).Nodup := by rwa [hysfst] at hnodup
  have houtfst : out.map Prod.fst = List.range comps.length := by
    refine List.eq_of_perm_of_sorted (r := fun a b => a ≤ b)
      ((houtperm.map Prod.fst).trans hfstperm) ?_ (List.sorted_le_range _)
    exact List.pairwise_map.mpr ((List.sorted_insertionSort rIdx ys).imp (fun h => h))
  constructor
  · rw [List.length_map, houtlen]
  · intro i hi
    have hiout : i < out.length := by rw [houtlen]; exact hi
    have hmaplen : i < (out.map Prod.snd).length := by rw [List.length_map]; exact hiout
    rw [List.getElem?_eq_getElem hmaplen]
    congr 1
    rw [List.getElem_map]
    have hfi : (out[i]).1 = i := by
      have h2 : (out.map Prod.fst)[i]? = some i := by
        rw [houtfst]
        exact List.getElem?_range hi
      rw [List.getElem?_map, List.getElem?_eq_getElem hiout] at h2
      simpa using h2
    have hmem : out[i] ∈ ys := houtperm.subset (List.getElem_mem hiout)
    obtain ⟨j, hj, hysj⟩ := List.mem_iff_getElem.1 hmem
    have hjsc : j < sc.length := by
      rw [hsclen]
      rw [hyslen] at hj
      exact hj
    have hjenum : j < sc.enum.length := by rw [List.enum_length]; exact hjsc
    have hysj2 : ys[j] = ((sc[j]).1, f j (sc[j]).2) := by
      simp only [hys, List.getElem_map, List.getElem_enum]
    have hfstj : (sc[j]).1 = i := by
      have h3 : (ys[j]).1 = i := by rw [hysj, hfi]
      rw [hysj2] at h3
      exact h3
    have hlevel : bracketLevel comps i = j := by
      rw [bracketLevel, ← hsc]
      apply (List.findIdx_eq hjsc).2
      refine ⟨by simp [hfstj], ?_⟩
      intro k hk
      have hk2 : k < sc.length := Nat.lt_trans hk hjsc
      simp only [beq_eq_false_iff_ne, ne_eq, decide_eq_false_iff_not, beq_iff_eq]
      intro hcontra
      have hkm : k < (List.map Prod.fst sc).length := by
        rw [List.length_map]; exact hk2
      have hjm : j < (List.map Prod.fst sc).length := by
        rw [List.length_map]; exact hjsc
      have heq2 : (List.map Prod.fst sc)[k] = (List.map Prod.fst sc)[j] := by
        simp only [List.getElem_map]
        rw [hcontra, hfstj]
      have hkj : k = j := (hscnodup.getElem_inj_iff).1 heq2
      omega
    have hspan : (sc[j]).2 = comps[i] := by
      have hmemsc : sc[j] ∈ sc := List.getElem_mem hjsc
      have hmem2 : sc[j] ∈ comps.enum := hscperm.subset hmemsc
      have h4 := List.mem_enum_iff_getElem?.1 hmem2
      rw [hfstj, List.getElem?_eq_getElem hi] at h4
      exact (Option.some.inj h4).symm
    rw [← hysj, hysj2]
    simp only
    rw [hlevel, hspan]

/-- C4: `auto_position_brackets` returns exactly one y-position per input
span, in the original input order: the i-th element of the output is the
bracket y computed for the i-th input span (its own local data maximum plus
the base offset plus its width-rank stack level times the stack spacing,
both as multiples of the overall data range), regardless of the internal
width-descending reordering. -/
theorem position_brackets_order_and_count :
    ∀ (ax : Axes) (comps : List (ℚ × ℚ)) (b s : ℚ),
      (autoPositionBrackets ax comps b s).length = comps.length ∧
      ∀ i (hi : i < comps.length),
        (autoPositionBrackets ax comps b s)[i]? =
          some (getDataMaxInRange ax (some comps[i]) + b * dataRangeOf ax
            + (bracketLevel comps i : ℚ) * s * dataRangeOf ax) := by
  intro ax comps b s
  exact brackets_pipeline
    (fun level span => getDataMaxInRange ax (some span) + b * dataRangeOf ax
      + (level : ℚ) * s * dataRangeOf ax) comps

/-- Witness for C4 at a single span on the equal-height-bars axes. -/
theorem position_brackets_order_and_count_witness :
    (autoPositionBrackets equalBarsAx [(0, 1)] (5 / 100) (8 / 100)).length = 1 ∧
    (autoPositionBrackets equalBarsAx [(0, 1)] (5 / 100) (8 / 100))[0]? =
      some (getDataMaxInRange equalBarsAx (some (0, 1)) + (5 / 100) * dataRangeOf equalBarsAx
        + (bracketLevel [(0, 1)] 0 : ℚ) * (8 / 100) * dataRangeOf equalBarsAx) := by
  have h := position_brackets_order_and_count equalBarsAx [(0, 1)] (5 / 100) (8 / 100)
  exact ⟨by simpa using h.1, h.2 0 (by norm_num)⟩
